import Mathlib

/-!
Verification of the documentation build script `docs/build_documentation.py`
(`DocumentationBuilder`).  Python text values are embedded as lists of
characters; file contents are transformed by pure functions translated
line-for-line from the source, and the filesystem is modelled as a total map
from destination paths to contents.
-/

set_option maxRecDepth 8000

/-- Python text values are embedded as lists of characters. -/
abbrev Str : Type := List Char

/-- Characters of a Lean string literal, used to write embedded Python `str` values. -/
def str (s : String) : Str := s.data

/-- Python substring test `p in s` (true for the empty pattern). -/
def containsSub (p : Str) : Str → Bool
  | [] => p.isEmpty
  | c :: rest => p.isPrefixOf (c :: rest) || containsSub p rest

/-- Number of starting positions at which `p` occurs as a substring of `s`. -/
def countOcc (p : Str) : Str → Nat
  | [] => 0
  | c :: rest => (if p.isPrefixOf (c :: rest) then 1 else 0) + countOcc p rest

/-- Python `s.split(sep)` for a one-character separator: `"".split` gives `[""]`. -/
def splitOnChar (sep : Char) : Str → List Str
  | [] => [[]]
  | c :: rest =>
    if c = sep then [] :: splitOnChar sep rest
    else
      match splitOnChar sep rest with
      | [] => [[c]]
      | l :: ls => (c :: l) :: ls

/-- Python `sep.join(parts)` for a one-character separator. -/
def joinC (sep : Char) : List Str → Str
  | [] => []
  | l :: ls =>
    match ls with
    | [] => l
    | _ :: _ => l ++ sep :: joinC sep ls

/-- Last component of a `/`-separated path, as in `pathlib.Path(...).name`. -/
def pathName (p : Str) : Str := (splitOnChar '/' p).getLastD []

/-- Index of the last occurrence of `c` in `s`, if any. -/
def findLastIdx (c : Char) : Str → Option Nat
  | [] => none
  | x :: rest =>
    match findLastIdx c rest with
    | some i => some (i + 1)
    | none => if x = c then some 0 else none

/-- Filename without its extension, as in `pathlib.Path(...).stem`: the suffix
starts at the last dot, provided that dot is neither the first nor the last
character of the name. -/
def stemOf (nm : Str) : Str :=
  match findLastIdx '.' nm with
  | some i => if 0 < i ∧ i + 1 < nm.length then nm.take i else nm
  | none => nm

/-- Python `s.lower()` restricted to ASCII letters (all inputs here are ASCII). -/
def pyLower (s : Str) : Str := s.map Char.toLower

/-- Python whitespace characters stripped by `str.strip()` (ASCII subset). -/
def pyIsSpace (c : Char) : Bool :=
  c = ' ' || c = '\t' || c = '\n' || c = '\r' || c = '\x0b' || c = '\x0c'

/-- Python `s.strip()`: remove whitespace from both ends. -/
def pyStrip (s : Str) : Str :=
  ((s.dropWhile pyIsSpace).reverse.dropWhile pyIsSpace).reverse

/-- Helper for `pyTitle`: `prevAlpha` records whether the previous character
was a letter. -/
def pyTitleGo (prevAlpha : Bool) : Str → Str
  | [] => []
  | c :: rest =>
    if c.isAlpha then
      (if prevAlpha then c.toLower else c.toUpper) :: pyTitleGo true rest
    else c :: pyTitleGo false rest

/-- Python `s.title()` restricted to ASCII letters: each maximal run of letters
is capitalized on its first letter, lowercased on the rest. -/
def pyTitle (s : Str) : Str := pyTitleGo false s

/-- Python `s.replace('_', ' ')`. -/
def underscoreToSpace (s : Str) : Str := s.map fun c => if c = '_' then ' ' else c

/-- Association-list lookup, as for a Python `dict` keyed by strings. -/
def lookupStr (k : Str) : List (Str × Str) → Option Str
  | [] => none
  | (k0, v0) :: rest => if k0 = k then some v0 else lookupStr k rest

/-- Python `d.get(k, k)`: lookup with the key itself as default. -/
def lookupD (l : List (Str × Str)) (k : Str) : Str :=
  match lookupStr k l with
  | some v => v
  | none => k

/-- Python `d[k] = v` on an insertion-ordered `dict`: update in place if the
key exists, else append. -/
def assocSet : List (Str × Str) → Str → Str → List (Str × Str)
  | [], k, v => [(k, v)]
  | (k0, v0) :: rest, k, v =>
    if k0 = k then (k0, v) :: rest else (k0, v0) :: assocSet rest k v

/-- Number of occurrences of an element in a list (used for diagnostics). -/
def countElem {α : Type} [DecidableEq α] (x : α) : List α → Nat
  | [] => 0
  | y :: l => (if y = x then 1 else 0) + countElem x l

/-- The badge sentinel string whose presence makes `add_reproduction_badges` a
no-op (`build_documentation.py` line 130). -/
def badgeSentinel : Str :=
  str "![Reproducible](https://img.shields.io/badge/Reproducible-Yes-brightgreen)"

/-- The badge block inserted after the first heading
(`build_documentation.py` lines 134-140), a single element of the line list. -/
def badgeSectionStr : Str :=
  str "\n[![Reproducible](https://img.shields.io/badge/Reproducible-Yes-brightgreen)](https://github.com/Fabbiologia/vibe-coding-for-ecology)\n[![R](https://img.shields.io/badge/R-4.0+-blue)](https://www.r-project.org/)\n[![Tidyverse](https://img.shields.io/badge/Tidyverse-Compatible-orange)](https://www.tidyverse.org/)\n[![License](https://img.shields.io/badge/License-MIT-yellow.svg)](https://opensource.org/licenses/MIT)\n\n"

/-- Loop of `add_reproduction_badges` (lines 144-147): insert the badge block
after the first line starting with `#` whose index is below 10. -/
def insertBadge (i : Nat) : List Str → List Str
  | [] => []
  | l :: ls =>
    if (str "#").isPrefixOf l ∧ i < 10 then l :: badgeSectionStr :: ls
    else l :: insertBadge (i + 1) ls

/-- Content transformation of `DocumentationBuilder.add_reproduction_badges`
(lines 122-149): skip if the sentinel is present, else split into lines,
insert the badge block after the first heading in the first 10 lines, rejoin. -/
def addReproductionBadges (content : Str) : Str :=
  if containsSub badgeSentinel content then content
  else joinC '\n' (insertBadge 0 (splitOnChar '\n' content))

/-- Category table `DocumentationBuilder.workflow_categories` (lines 43-55),
in insertion order. -/
def workflowCategories : List (Str × Str) :=
  [ (str "00_agentic_prompt_templates", str "🤖 Agentic AI Templates"),
    (str "01_data_wrangling", str "🧹 Data Wrangling"),
    (str "02_visualization", str "📊 Visualization"),
    (str "03_univariate_models", str "📈 Univariate Models"),
    (str "04_multivariate_analysis", str "🔬 Multivariate Analysis"),
    (str "05_diversity_metrics", str "🌿 Diversity Metrics"),
    (str "06_mixed_effects_models", str "🔄 Mixed Effects Models"),
    (str "07_time_series_analysis", str "⏰ Time Series Analysis"),
    (str "08_spatial_analysis", str "🗺️ Spatial Analysis"),
    (str "09_species_distribution", str "🦋 Species Distribution"),
    (str "10_population_simulation", str "🔢 Population Simulation") ]

/-- First category key that is a substring of the path, scanning the table in
insertion order (the loop shared by `determine_category` lines 374-376 and
`find_related_workflows` lines 222-226). -/
def firstKeyIn (path : Str) : List (Str × Str) → Option Str
  | [] => none
  | (k, _) :: rest => if containsSub k path then some k else firstKeyIn path rest

/-- Filename-keyword fallback of `determine_category` (lines 378-401), applied
to the lowercased stem, rules in source order, default `00_other`. -/
def fallbackCategory (name : Str) : Str :=
  if containsSub (str "data") name || containsSub (str "wrangle") name
      || containsSub (str "tidy") name then str "01_data_wrangling"
  else if containsSub (str "viz") name || containsSub (str "plot") name
      || containsSub (str "ggplot") name then str "02_visualization"
  else if containsSub (str "model") name || containsSub (str "lm") name
      || containsSub (str "glm") name then str "03_univariate_models"
  else if containsSub (str "pca") name || containsSub (str "ordination") name
      || containsSub (str "multivariate") name then str "04_multivariate_analysis"
  else if containsSub (str "diversity") name || containsSub (str "shannon") name
      || containsSub (str "richness") name then str "05_diversity_metrics"
  else if containsSub (str "mixed") name || containsSub (str "lmm") name
      || containsSub (str "glmm") name then str "06_mixed_effects_models"
  else if containsSub (str "spatial") name || containsSub (str "gis") name
      || containsSub (str "raster") name then str "08_spatial_analysis"
  else if containsSub (str "species") name || containsSub (str "distribution") name
      || containsSub (str "sdm") name then str "09_species_distribution"
  else if containsSub (str "time") name || containsSub (str "series") name
      || containsSub (str "temporal") name then str "07_time_series_analysis"
  else if containsSub (str "population") name || containsSub (str "simulation") name
      || containsSub (str "agent") name then str "10_population_simulation"
  else str "00_other"

/-- `DocumentationBuilder.determine_category` (lines 370-401): first category
key occurring in the path string, else the filename-keyword fallback on the
lowercased stem. -/
def determineCategory (path : Str) : Str :=
  match firstKeyIn path workflowCategories with
  | some k => k
  | none => fallbackCategory (pyLower (stemOf (pathName path)))

/-- Python `category.split('_', 1)[1] if '_' in category else category`
(line 225): drop everything through the first underscore. -/
def afterUnderscore (k : Str) : Str :=
  let pre := k.takeWhile fun c => !(c = '_')
  if pre.length = k.length then k else k.drop (pre.length + 1)

/-- Relationship table of `find_related_workflows` (lines 208-219). -/
def relationships : List (Str × List Str) :=
  [ (str "data_wrangling", [str "visualization", str "univariate", str "multivariate"]),
    (str "visualization", [str "data_wrangling", str "univariate", str "multivariate"]),
    (str "univariate", [str "data_wrangling", str "visualization", str "multivariate"]),
    (str "multivariate", [str "data_wrangling", str "visualization", str "diversity"]),
    (str "diversity", [str "multivariate", str "spatial", str "mixed_effects"]),
    (str "mixed_effects", [str "univariate", str "diversity", str "population"]),
    (str "spatial", [str "diversity", str "species_distribution", str "time_series"]),
    (str "species_distribution", [str "spatial", str "multivariate", str "mixed_effects"]),
    (str "time_series", [str "spatial", str "mixed_effects", str "population"]),
    (str "population", [str "mixed_effects", str "time_series", str "species_distribution"]) ]

/-- Lookup in the relationship table. -/
def lookupRel (k : Str) : List (Str × List Str) → Option (List Str)
  | [] => none
  | (k0, v0) :: rest => if k0 = k then some v0 else lookupRel k rest

/-- `DocumentationBuilder.find_related_workflows` (lines 202-234): the current
type is the first category key occurring in the path (no filename fallback);
for each related type, every known workflow whose name contains it is added to
an insertion-ordered dict keyed by the title-cased name. -/
def findRelatedWorkflows (path : Str) (links : List (Str × Str)) : List (Str × Str) :=
  match firstKeyIn path workflowCategories with
  | none => []
  | some key =>
    let currentType := afterUnderscore key
    if currentType.isEmpty then []
    else
      match lookupRel currentType relationships with
      | none => []
      | some relTypes =>
        relTypes.foldl
          (fun acc rt =>
            links.foldl
              (fun acc2 pr =>
                if containsSub rt (pyLower pr.1) then
                  assocSet acc2 (pyTitle (underscoreToSpace pr.1)) pr.2
                else acc2)
              acc)
          []

/-- Sentinel of the cross-reference idempotence guard (line 172). -/
def relatedHeaderStr : Str := str "## Related Workflows"

/-- Cross-reference section built at lines 182-186: header, one bullet per
related workflow, trailing blank line. -/
def crossRefSection (related : List (Str × Str)) : Str :=
  str "\n## Related Workflows\n\n"
    ++ related.foldl
        (fun acc pr => acc ++ str "- [" ++ pr.1 ++ str "](" ++ pr.2 ++ str ")\n") []
    ++ str "\n"

/-- Index of the last element satisfying `pred` (the reversed scan of
lines 190-193). -/
def lastMatchIdx (pred : Str → Bool) : List Str → Option Nat
  | [] => none
  | l :: rest =>
    match lastMatchIdx pred rest with
    | some i => some (i + 1)
    | none => if pred l then some 0 else none

/-- Line test of line 191: starts with `## ` and contains `Summary`. -/
def isSummaryLine (l : Str) : Bool :=
  (str "## ").isPrefixOf l && containsSub (str "Summary") l

/-- Content transformation of
`DocumentationBuilder.add_cross_references_to_file` (lines 164-200): skip when
the `## Related Workflows` guard is present or no related workflows are found;
else insert the section before the last `## ...Summary...` line, or append it
at the end when no such line exists. -/
def addCrossReferencesToFile (path content : Str) (links : List (Str × Str)) : Str :=
  if containsSub relatedHeaderStr content then content
  else
    let related := findRelatedWorkflows path links
    if related.isEmpty then content
    else
      let sec := crossRefSection related
      let ls := splitOnChar '\n' content
      match lastMatchIdx isSummaryLine ls with
      | some i => joinC '\n' (ls.take i ++ sec :: ls.drop i)
      | none => content ++ sec

/-- First line of `ls` that starts with `pre` and has at least one further
character; returns the remainder of that line.  This is `re.search` in
MULTILINE mode for a pattern of the form `^<pre>(.+)$`. -/
def firstCapture (pre : Str) : List Str → Option Str
  | [] => none
  | l :: ls =>
    if pre.isPrefixOf l ∧ pre.length < l.length then some (l.drop pre.length)
    else firstCapture pre ls

/-- `DocumentationBuilder.extract_workflow_title` (lines 403-423): try the
three patterns in order over the file text, stripping the first capture; fall
back to the title-cased stem. -/
def extractWorkflowTitle (stem content : Str) : Str :=
  let ls := splitOnChar '\n' content
  match firstCapture (str "# Vibe Workflow: ") ls with
  | some g => pyStrip g
  | none =>
    match firstCapture (str "**Goal:** ") ls with
    | some g => pyStrip g
    | none =>
      match firstCapture (str "# ") ls with
      | some g => pyStrip g
      | none => pyTitle (underscoreToSpace stem)

/-- `DocumentationBuilder.extract_title` (lines 425-438): first generic
heading, else the title-cased stem. -/
def extractTitle (stem content : Str) : Str :=
  match firstCapture (str "# ") (splitOnChar '\n' content) with
  | some g => pyStrip g
  | none => pyTitle (underscoreToSpace stem)

/-- A markdown source file of the project tree: its path relative to the
project root and its textual content.  File discovery
(`find_all_markdown_files`, lines 57-76) is abstracted as the input list of
discovered files in traversal order. -/
structure SrcFile where
  path : Str
  content : Str

/-- Destination category of `copy_and_organize_files` (lines 78-120). -/
inductive RouteCat where
  | workflows
  | examples
  | rules
  | main
deriving DecidableEq

/-- The recognized main filenames (line 114). -/
def mainFileNames : List Str := [str "README.md", str "CODE_OF_CONDUCT.md"]

/-- Routing chain of `copy_and_organize_files` (lines 92-118): substring tests
on the relative path in source order, then the main-filename test; `none`
means the file is dropped. -/
def routeFile (f : SrcFile) : Option RouteCat :=
  if containsSub (str "workflows") f.path then some .workflows
  else if containsSub (str "examples") f.path then some .examples
  else if containsSub (str "rules") f.path then some .rules
  else if (pathName f.path) ∈ mainFileNames then some .main
  else none

/-- The `file_map` dictionary (lines 80-85): destination paths per category,
in append order. -/
structure FileMap4 where
  workflows : List Str
  examples : List Str
  rules : List Str
  main : List Str
deriving DecidableEq

/-- The initial empty file map. -/
def emptyFileMap : FileMap4 := ⟨[], [], [], []⟩

/-- Destination path for a routed file (lines 94, 102, 110, 116). -/
def destPath : RouteCat → Str → Str
  | .workflows, nm => str "docs/workflows/" ++ nm
  | .examples, nm => str "docs/examples/" ++ nm
  | .rules, nm => str "docs/rules/" ++ nm
  | .main, nm => str "docs/" ++ nm

/-- Append a destination to the routed category's list. -/
def addToMap (fm : FileMap4) : RouteCat → Str → FileMap4
  | .workflows, d => { fm with workflows := fm.workflows ++ [d] }
  | .examples, d => { fm with examples := fm.examples ++ [d] }
  | .rules, d => { fm with rules := fm.rules ++ [d] }
  | .main, d => { fm with main := fm.main ++ [d] }

/-- One iteration of the copy loop: route the file, record the copy action
(source path, destination path, copied content) and the destination. -/
def coStep (acc : FileMap4 × List (Str × Str × Str)) (f : SrcFile) :
    FileMap4 × List (Str × Str × Str) :=
  match routeFile f with
  | none => acc
  | some c =>
    (addToMap acc.1 c (destPath c (pathName f.path)),
      acc.2 ++ [(f.path, destPath c (pathName f.path), f.content)])

/-- `DocumentationBuilder.copy_and_organize_files` (lines 78-120): the file
map together with the list of `shutil.copy2` actions performed. -/
def copyAndOrganize (files : List SrcFile) : FileMap4 × List (Str × Str × Str) :=
  files.foldl coStep (emptyFileMap, [])

/-- The docs tree, modelled as a total map from destination path to content
(absent files map to the empty string). -/
abbrev Store : Type := Str → Str

/-- The empty docs tree. -/
def emptyStore : Store := fun _ => []

/-- Write one file: later writes to the same path overwrite earlier ones. -/
def upd (st : Store) (k v : Str) : Store := fun x => if x = k then v else st x

/-- Docs tree after the copy stage: copies applied in order. -/
def storeAfterCopies (copies : List (Str × Str × Str)) : Store :=
  copies.foldl (fun st e => upd st e.2.1 e.2.2) emptyStore

/-- Workflow-link map of `create_cross_references` (lines 153-158): keyed by
stem, first occurrence wins, value `workflows/<name>`. -/
def buildLinks (wfs : List Str) : List (Str × Str) :=
  wfs.foldl
    (fun acc p =>
      match lookupStr (stemOf (pathName p)) acc with
      | some _ => acc
      | none => acc ++ [(stemOf (pathName p), str "workflows/" ++ pathName p)])
    []

/-- Lexicographic comparison of path strings by code point.  Python sorts
`Path` objects by their components; for destination paths that share one
parent directory (the only case arising here) this coincides with
lexicographic comparison of the full path string. -/
def lexLe : Str → Str → Bool
  | [], _ => true
  | _ :: _, [] => false
  | a :: as, b :: bs => if a = b then lexLe as bs else decide (a.val < b.val)

/-- Insertion step of the sort used for `sorted(...)`. -/
def insertSorted (x : Str) : List Str → List Str
  | [] => [x]
  | y :: ys => if lexLe x y then x :: y :: ys else y :: insertSorted x ys

/-- Python `sorted` on destination paths (stable insertion sort). -/
def sortPaths (l : List Str) : List Str := l.foldr insertSorted []

/-- Workflow-category loop of `generate_index_readme` (lines 259-274): emit a
`#### <label>` heading whenever the category changes from the previous file,
then the link line; titles are read from the current docs tree. -/
def wfEntriesGo (st : Store) : Option Str → List Str → Str
  | _, [] => []
  | cur, p :: rest =>
    (if cur = some (determineCategory p) then ([] : Str)
      else str "\n#### " ++ lookupD workflowCategories (determineCategory p) ++ str "\n\n")
      ++ str "- [" ++ extractWorkflowTitle (stemOf (pathName p)) (st p)
      ++ str "](workflows/" ++ pathName p ++ str ")\n"
      ++ wfEntriesGo st (some (determineCategory p)) rest

/-- Entry lines for the examples/rules/main sections (lines 283-308):
`- [<title>](<dirPre><name>)`. -/
def sectionEntries (st : Store) (dirPre : Str) : List Str → Str
  | [] => []
  | p :: rest =>
    str "- [" ++ extractTitle (stemOf (pathName p)) (st p)
      ++ str "](" ++ dirPre ++ pathName p ++ str ")\n"
      ++ sectionEntries st dirPre rest

/-- Fixed opening block of the generated index (lines 238-257), with
`{self.repo_url}` substituted. -/
def indexHeader : Str :=
  str "# 🌱 Vibe Coding for Ecology: Documentation Index\n\nWelcome to the complete documentation for the **Vibe Coding for Ecology** project! This index provides organized access to all workflows, examples, and guidelines for agentic AI-assisted ecological analysis.\n\n[![Reproducible](https://img.shields.io/badge/Reproducible-Yes-brightgreen)](https://github.com/Fabbiologia/vibe-coding-for-ecology)\n[![R](https://img.shields.io/badge/R-4.0+-blue)](https://www.r-project.org/)\n[![Tidyverse](https://img.shields.io/badge/Tidyverse-Compatible-orange)](https://www.tidyverse.org/)\n[![License](https://img.shields.io/badge/License-MIT-yellow.svg)](https://opensource.org/licenses/MIT)\n\n## 🎯 Quick Start\n\n1. **For AI Agents**: Copy any workflow template and paste into your AI coding environment\n2. **For Researchers**: Clone the repository and follow the structured workflows\n3. **For Contributors**: Check the rules and contributing guidelines\n\n## 📚 Documentation Structure\n\n### 🔬 Workflow Categories\n\n"

/-- Fixed closing block of the generated index (lines 310-363), with
`{self.repo_url}` substituted. -/
def indexFooter : Str :=
  str "\n\n## 🔄 Workflow Dependencies\n\nThe workflows are designed to build upon each other:\n\n```mermaid\ngraph TD\n    A[00_agentic_prompt_templates] --> B[01_data_wrangling]\n    B --> C[02_visualization]\n    B --> D[03_univariate_models]\n    B --> E[04_multivariate_analysis]\n    E --> F[05_diversity_metrics]\n    D --> G[06_mixed_effects_models]\n    F --> H[08_spatial_analysis]\n    H --> I[09_species_distribution]\n    G --> J[10_population_simulation]\n    H --> K[07_time_series_analysis]\n```\n\n## 🧪 Quality Assurance\n\nAll documentation has been:\n- ✅ **Linted** with markdownlint for consistency\n- ✅ **Cross-referenced** for workflow interconnections\n- ✅ **Badge-enhanced** for reproducibility tracking\n- ✅ **Organized** in logical categories\n- ✅ **Validated** for internal link integrity\n\n## 🚀 Getting Started\n\n### For AI Agents\n1. Browse the workflow categories above\n2. Copy the relevant workflow template\n3. Paste into your AI coding environment (Claude, ChatGPT, Cursor, etc.)\n4. Adapt to your specific research question\n\n### For Manual Use\n1. Clone the repository: `git clone https://github.com/Fabbiologia/vibe-coding-for-ecology`\n2. Navigate to the workflow of interest\n3. Follow the 5-part structure: 🪴 Setup → 🧹 Wrangle → 🔬 Analyze → 📊 Visualize → 🧬 Reproduce\n\n## 📞 Support\n\n- **Issues**: Report bugs or request features on [GitHub Issues](https://github.com/Fabbiologia/vibe-coding-for-ecology/issues)\n- **Discussions**: Join the conversation on [GitHub Discussions](https://github.com/Fabbiologia/vibe-coding-for-ecology/discussions)\n- **Contributing**: See [CONTRIBUTING.md](rules/CONTRIBUTING.md)\n\n---\n\n**Ready to start coding with vibe?** Choose your workflow and feel the difference that clarity and intention make in your analysis!\n\n*Generated automatically by build_documentation.py*\n"

/-- `DocumentationBuilder.generate_index_readme` (lines 236-368): header,
workflow entries grouped by category over the sorted workflow list, static
section headings with example/rule/main entries, footer. -/
def generateIndexReadme (fm : FileMap4) (st : Store) : Str :=
  indexHeader
    ++ wfEntriesGo st none (sortPaths fm.workflows)
    ++ str "\n\n### 📖 Examples & Templates\n\n"
    ++ sectionEntries st (str "examples/") (sortPaths fm.examples)
    ++ str "\n\n### 📋 Rules & Guidelines\n\n"
    ++ sectionEntries st (str "rules/") (sortPaths fm.rules)
    ++ str "\n\n### 🏠 Main Documentation\n\n"
    ++ sectionEntries st [] (sortPaths fm.main)
    ++ indexFooter

/-- `DocumentationBuilder.build_documentation` (lines 489-529) as a docs-tree
transformer: copy and organize, add badges to each workflow file, add
cross-references, then write the generated index at `docs/README.md`.
Link validation and linting do not modify any file. -/
def buildDocumentation (files : List SrcFile) : Store :=
  upd
    ((copyAndOrganize files).1.workflows.foldl
      (fun st p => upd st p (addCrossReferencesToFile p (st p)
        (buildLinks (copyAndOrganize files).1.workflows)))
      ((copyAndOrganize files).1.workflows.foldl
        (fun st p => upd st p (addReproductionBadges (st p)))
        (storeAfterCopies (copyAndOrganize files).2)))
    (str "docs/README.md")
    (generateIndexReadme (copyAndOrganize files).1
      ((copyAndOrganize files).1.workflows.foldl
        (fun st p => upd st p (addCrossReferencesToFile p (st p)
          (buildLinks (copyAndOrganize files).1.workflows)))
        ((copyAndOrganize files).1.workflows.foldl
          (fun st p => upd st p (addReproductionBadges (st p)))
          (storeAfterCopies (copyAndOrganize files).2))))

/-- One attempted match of the link regex `\[([^\]]+)\]\(([^\)]+)\)` starting
right after an opening `[`: greedy non-`]` run, then `](`, greedy non-`)` run,
then `)`; returns the two capture groups and the unconsumed remainder. -/
def tryLink (s : Str) : Option (Str × Str × Str) :=
  let t := s.takeWhile fun c => !(c = ']')
  match s.dropWhile fun c => !(c = ']') with
  | ']' :: '(' :: r2 =>
    if t.isEmpty then none
    else
      let u := r2.takeWhile fun c => !(c = ')')
      match r2.dropWhile fun c => !(c = ')') with
      | ')' :: rem => if u.isEmpty then none else some (t, u, rem)
      | _ => none
  | _ => none

/-- Scanner for `re.findall` of the link regex (line 459): non-overlapping
matches left to right; on failure the scan advances one character.  The fuel
decreases once per step and every step consumes at least one character, so
`s.length` fuel scans the whole string. -/
def scanLinks : Nat → Str → List (Str × Str)
  | 0, _ => []
  | _ + 1, [] => []
  | fuel + 1, c :: rest =>
    if c = '[' then
      match tryLink rest with
      | some (t, u, rem) => (t, u) :: scanLinks fuel rem
      | none => scanLinks fuel rest
    else scanLinks fuel rest

/-- Markdown link extraction: all `[text](url)` pairs in order. -/
def extractLinks (s : Str) : List (Str × Str) := scanLinks s.length s

/-- Python `file_path.relative_to(self.docs_path)` for destination paths,
which always live under `docs/`. -/
def relToDocs (p : Str) : Str := if (str "docs/").isPrefixOf p then p.drop 5 else p

/-- All copied files, in the file map's category order (line 445). -/
def allFiles (fm : FileMap4) : List Str :=
  fm.workflows ++ fm.examples ++ fm.rules ++ fm.main

/-- Known-file set of `validate_internal_links` (lines 449-452): each file's
name and its docs-relative path. -/
def availableFiles (fm : FileMap4) : List Str :=
  (allFiles fm).foldl (fun acc p => acc ++ [pathName p, relToDocs p]) []

/-- Diagnostic text of line 467. -/
def brokenMsg (nm t u : Str) : Str :=
  str "Broken link in " ++ nm ++ str ": [" ++ t ++ str "](" ++ u ++ str ")"

/-- Per-link check of lines 461-467: skip `http`-prefixed targets, skip known
targets, else report. -/
def issueOf (avail : List Str) (nm : Str) (pr : Str × Str) : Option Str :=
  if (str "http").isPrefixOf pr.2 then none
  else if avail.contains pr.2 then none
  else some (brokenMsg nm pr.1 pr.2)

/-- Diagnostics contributed by one file. -/
def fileIssues (avail : List Str) (nm content : Str) : List Str :=
  (extractLinks content).filterMap (issueOf avail nm)

/-- Loop of lines 455-467 over the copied files. -/
def validateGo (avail : List Str) (st : Store) : List Str → List Str
  | [] => []
  | p :: ps => fileIssues avail (pathName p) (st p) ++ validateGo avail st ps

/-- `DocumentationBuilder.validate_internal_links` (lines 440-469): the
collected list of broken-link diagnostics (never raising). -/
def validateInternalLinks (fm : FileMap4) (st : Store) : List Str :=
  validateGo (availableFiles fm) st (allFiles fm)

/-- Outcome of the `subprocess.run` call in `run_markdown_lint` (lines
471-487): either the executable is missing (`FileNotFoundError`) or it
completed with an exit code and captured standard output. -/
inductive LintOutcome where
  | toolNotFound : LintOutcome
  | completed (returncode : Int) (stdout : Str) : LintOutcome

/-- Message of line 487 (tool missing). -/
def lintNotFoundMsg : Str :=
  str "❌ markdownlint not found. Please install with: npm install -g markdownlint-cli"

/-- Message of line 482 (clean run). -/
def lintPassMsg : Str := str "✅ All markdown files pass linting"

/-- Message of line 484 (non-zero exit), carrying the captured output. -/
def lintFailMsg (stdout : Str) : Str := str "❌ Markdown linting issues:\n" ++ stdout

/-- `DocumentationBuilder.run_markdown_lint` (lines 471-487) over the
abstracted subprocess outcome: never raises, returns a pass flag and a
message. -/
def runMarkdownLint : LintOutcome → Bool × Str
  | .toolNotFound => (false, lintNotFoundMsg)
  | .completed rc out => if rc = 0 then (true, lintPassMsg) else (false, lintFailMsg out)


theorem containsSub_correct (p : Str) : ∀ s : Str, containsSub p s = true ↔ p <:+: s := by
  intro s
  induction s with
  | nil =>
    simp [containsSub, List.isEmpty_iff]
  | cons c rest ih =>
    simp only [containsSub, Bool.or_eq_true, List.isPrefixOf_iff_prefix, ih]
    exact Iff.symm List.infix_cons_iff

theorem containsSub_of_infix {p s : Str} (h : p <:+: s) : containsSub p s = true :=
  (containsSub_correct p s).mpr h

theorem countOcc_eq_zero_of_not_contains {p : Str} :
    ∀ {s : Str}, containsSub p s = false → countOcc p s = 0 := by
  intro s
  induction s with
  | nil => intro _; rfl
  | cons c rest ih =>
    intro h
    simp only [containsSub, Bool.or_eq_false_iff] at h
    simp [countOcc, h.1, ih h.2]

theorem isPrefixOf_append_cons {p : Str} {c : Char} (hc : c ∉ p) :
    ∀ (a b : Str), p.isPrefixOf (a ++ c :: b) = p.isPrefixOf a := by
  induction p with
  | nil => intro a b; simp
  | cons x pt ih =>
    intro a b
    cases a with
    | nil =>
      have hx : x ≠ c := fun h => hc (h ▸ List.mem_cons_self x pt)
      simp [List.isPrefixOf, beq_eq_false_iff_ne.mpr hx]
    | cons y a' =>
      have hct : c ∉ pt := fun h => hc (List.mem_cons_of_mem x h)
      simp only [List.cons_append, List.isPrefixOf, List.append_eq]
      rw [ih hct a' b]

theorem countOcc_append_cons {p : Str} {c : Char} (hc : c ∉ p) (hp : p ≠ []) :
    ∀ (a b : Str), countOcc p (a ++ c :: b) = countOcc p a + countOcc p b := by
  intro a b
  induction a with
  | nil =>
    obtain ⟨x, pt, rfl⟩ := List.exists_cons_of_ne_nil hp
    have hx : x ≠ c := fun h => hc (h ▸ List.mem_cons_self x pt)
    simp [countOcc, List.isPrefixOf, beq_eq_false_iff_ne.mpr hx]
  | cons y a' ih =>
    show (if List.isPrefixOf p (y :: (a' ++ c :: b)) then 1 else 0) + countOcc p (a' ++ c :: b)
        = ((if List.isPrefixOf p (y :: a') then 1 else 0) + countOcc p a') + countOcc p b
    have hpre : List.isPrefixOf p (y :: (a' ++ c :: b)) = List.isPrefixOf p (y :: a') :=
      isPrefixOf_append_cons hc (y :: a') b
    rw [hpre, ih]
    omega

theorem countOcc_eq_zero_of_length_lt {p : Str} :
    ∀ {s : Str}, s.length < p.length → countOcc p s = 0 := by
  intro s
  induction s with
  | nil => intro _; rfl
  | cons c rest ih =>
    intro h
    simp only [List.length_cons] at h
    have hpre : p.isPrefixOf (c :: rest) = false := by
      rcases hpf : p.isPrefixOf (c :: rest) with _ | _
      · rfl
      · exfalso
        have hle := ((List.isPrefixOf_iff_prefix).mp hpf).length_le
        simp only [List.length_cons] at hle
        omega
    have hlt : rest.length < p.length := by omega
    simp [countOcc, hpre, ih hlt]

theorem countOcc_self {p : Str} (hp : p ≠ []) : countOcc p p = 1 := by
  obtain ⟨x, pt, rfl⟩ := List.exists_cons_of_ne_nil hp
  have hlt : pt.length < (x :: pt).length := by simp
  simp [countOcc, List.isPrefixOf_iff_prefix, countOcc_eq_zero_of_length_lt hlt]

theorem joinC_cons_of_ne_nil (sep : Char) (l : Str) {ls : List Str} (h : ls ≠ []) :
    joinC sep (l :: ls) = l ++ sep :: joinC sep ls := by
  cases ls with
  | nil => exact absurd rfl h
  | cons x xs => rfl

theorem splitOnChar_ne_nil (sep : Char) : ∀ s : Str, splitOnChar sep s ≠ [] := by
  intro s
  cases s with
  | nil => simp [splitOnChar]
  | cons c rest =>
    simp only [splitOnChar]
    by_cases h : c = sep
    · simp [h]
    · simp only [h, if_false]
      rcases hs : splitOnChar sep rest with _ | ⟨l, ls⟩
      · simp
      · simp

theorem joinC_splitOnChar (sep : Char) : ∀ s : Str, joinC sep (splitOnChar sep s) = s := by
  intro s
  induction s with
  | nil => rfl
  | cons c rest ih =>
    simp only [splitOnChar]
    by_cases h : c = sep
    · simp only [h, if_true]
      rw [joinC_cons_of_ne_nil sep [] (splitOnChar_ne_nil sep rest)]
      simp [ih]
    · simp only [h, if_false]
      rcases hs : splitOnChar sep rest with _ | ⟨l, ls⟩
      · exact absurd hs (splitOnChar_ne_nil sep rest)
      · rw [hs] at ih
        cases ls with
        | nil =>
          simp only [joinC] at ih
          simp [joinC, ih]
        | cons y ys =>
          rw [joinC_cons_of_ne_nil sep l (by simp)] at ih
          rw [joinC_cons_of_ne_nil sep (c :: l) (by simp)]
          simp [← ih]

theorem joinC_infix_of_mem {sep : Char} {l : Str} :
    ∀ {ls : List Str}, l ∈ ls → l <:+: joinC sep ls := by
  intro ls
  induction ls with
  | nil => intro h; cases h
  | cons x xs ih =>
    intro h
    rcases List.mem_cons.mp h with rfl | hmem
    · cases xs with
      | nil => exact List.infix_rfl
      | cons y ys =>
        rw [joinC_cons_of_ne_nil sep l (by simp)]
        exact (List.prefix_append l (sep :: joinC sep (y :: ys))).isInfix
    · have hxs : xs ≠ [] := List.ne_nil_of_mem hmem
      rw [joinC_cons_of_ne_nil sep x hxs]
      have : l <:+: joinC sep xs := ih hmem
      have hsuf : joinC sep xs <:+: x ++ sep :: joinC sep xs := by
        refine ⟨x ++ [sep], [], ?_⟩
        simp
      exact this.trans hsuf

theorem insertBadge_eq_or_mem : ∀ (ls : List Str) (i : Nat),
    insertBadge i ls = ls ∨ badgeSectionStr ∈ insertBadge i ls := by
  intro ls
  induction ls with
  | nil => intro i; left; rfl
  | cons l rest ih =>
    intro i
    simp only [insertBadge]
    by_cases h : (str "#").isPrefixOf l ∧ i < 10
    · right; simp [h]
    · simp only [h, if_false]
      rcases ih (i + 1) with heq | hmem
      · left; rw [heq]
      · right; exact List.mem_cons_of_mem l hmem

theorem insertBadge_eq_of_no_heading :
    ∀ (ls : List Str) (i : Nat),
      (∀ l ∈ ls.take (10 - i), (str "#").isPrefixOf l = false) →
      insertBadge i ls = ls := by
  intro ls
  induction ls with
  | nil => intro i _; rfl
  | cons l rest ih =>
    intro i h
    simp only [insertBadge]
    by_cases hi : i < 10
    · have htake : 0 < 10 - i := by omega
      have hl : (str "#").isPrefixOf l = false := by
        apply h
        rcases hk : 10 - i with _ | k
        · omega
        · simp [List.take_succ_cons]
      have hcond : ¬((str "#").isPrefixOf l ∧ i < 10) := by
        intro hc
        rw [hl] at hc
        exact Bool.false_ne_true hc.1
      simp only [hcond, if_false]
      rw [ih (i + 1) ?_]
      intro l' hl'
      apply h
      rcases hk : 10 - i with _ | k
      · omega
      · have : 10 - (i + 1) = k := by omega
        rw [this] at hl'
        simp only [hk, List.take_succ_cons]
        exact List.mem_cons_of_mem l hl'
    · have hcond : ¬((str "#").isPrefixOf l ∧ i < 10) := fun hc => hi hc.2
      simp only [hcond, if_false]
      rw [ih (i + 1) ?_]
      intro l' hl'
      have : 10 - (i + 1) = 0 := by omega
      rw [this] at hl'
      simp at hl'

theorem addReproductionBadges_of_contains {s : Str}
    (h : containsSub badgeSentinel s = true) : addReproductionBadges s = s := by
  simp [addReproductionBadges, h]

/-- C2: badge injection is idempotent, and whenever it changes a file it leaves
the badge sentinel in the new content. -/
theorem c2_badge_injection_idempotent :
    ∀ content : Str,
      addReproductionBadges (addReproductionBadges content) = addReproductionBadges content
      ∧ (addReproductionBadges content ≠ content →
          containsSub badgeSentinel (addReproductionBadges content) = true) := by
  intro content
  by_cases hg : containsSub badgeSentinel content = true
  · have hsame : addReproductionBadges content = content :=
      addReproductionBadges_of_contains hg
    exact ⟨by simp only [hsame], fun hne => absurd hsame hne⟩
  · have hg' : containsSub badgeSentinel content = false := by
      simpa using hg
    have hres : addReproductionBadges content
        = joinC '\n' (insertBadge 0 (splitOnChar '\n' content)) := by
      simp [addReproductionBadges, hg']
    rcases insertBadge_eq_or_mem (splitOnChar '\n' content) 0 with heq | hmem
    · have hsame : addReproductionBadges content = content := by
        rw [hres, heq, joinC_splitOnChar]
      exact ⟨by simp only [hsame], fun hne => absurd hsame hne⟩
    · have hsent : containsSub badgeSentinel (addReproductionBadges content) = true := by
        rw [hres]
        apply containsSub_of_infix
        have h1 : badgeSentinel <:+: badgeSectionStr := by
          have h2 : containsSub badgeSentinel badgeSectionStr = true := by decide
          exact (containsSub_correct _ _).mp h2
        exact h1.trans (joinC_infix_of_mem hmem)
      exact ⟨addReproductionBadges_of_contains hsent, fun _ => hsent⟩

/-- Witness for C2: on a file with a heading, badge injection changes the
content, and the sentinel is then present. -/
theorem c2_witness :
    containsSub badgeSentinel (addReproductionBadges (str "# T")) = true :=
  (c2_badge_injection_idempotent (str "# T")).2 (by decide)

/-- C8: if the sentinel is absent and none of the first 10 lines starts with
`#`, badge injection leaves the content unchanged. -/
theorem c8_badge_no_heading_noop :
    ∀ content : Str,
      containsSub badgeSentinel content = false →
      (∀ l ∈ (splitOnChar '\n' content).take 10, (str "#").isPrefixOf l = false) →
      addReproductionBadges content = content := by
  intro content hg hlines
  have : insertBadge 0 (splitOnChar '\n' content) = splitOnChar '\n' content := by
    apply insertBadge_eq_of_no_heading
    intro l hl
    exact hlines l (by simpa using hl)
  simp [addReproductionBadges, hg, this, joinC_splitOnChar]

/-- Witness for C8: a file whose first heading is on line 11 is unchanged. -/
theorem c8_witness :
    addReproductionBadges (str "a\nb\nc\nd\ne\nf\ng\nh\ni\nj\n# Late heading")
      = str "a\nb\nc\nd\ne\nf\ng\nh\ni\nj\n# Late heading" :=
  c8_badge_no_heading_noop _ (by decide) (by decide)

theorem firstKeyIn_eq_none {path : Str} :
    ∀ {cats : List (Str × Str)},
      (cats.all fun pr => !(containsSub pr.1 path)) = true →
      firstKeyIn path cats = none := by
  intro cats
  induction cats with
  | nil => intro _; rfl
  | cons pr rest ih =>
    obtain ⟨k, v⟩ := pr
    intro h
    simp only [List.all_cons, Bool.and_eq_true, Bool.not_eq_true'] at h
    simp [firstKeyIn, h.1, ih h.2]

/-- C5 counterexample: a path containing `08_spatial_analysis` on which
category resolution returns `01_data_wrangling` instead, because an earlier
table key also occurs (here, in the filename). -/
theorem c5_category_counterexample :
    containsSub (str "08_spatial_analysis")
        (str "workflows/08_spatial_analysis/01_data_wrangling.md") = true
    ∧ determineCategory (str "workflows/08_spatial_analysis/01_data_wrangling.md")
        = str "01_data_wrangling"
    ∧ determineCategory (str "workflows/08_spatial_analysis/01_data_wrangling.md")
        ≠ str "08_spatial_analysis" := by
  refine ⟨by decide, by decide, by decide⟩

/-- C5 amended: on a path containing `08_spatial_analysis` and none of the
eight category keys listed before it, category resolution returns
`08_spatial_analysis`, regardless of the filename. -/
theorem c5_category_amended :
    ∀ path : Str,
      containsSub (str "08_spatial_analysis") path = true →
      containsSub (str "00_agentic_prompt_templates") path = false →
      containsSub (str "01_data_wrangling") path = false →
      containsSub (str "02_visualization") path = false →
      containsSub (str "03_univariate_models") path = false →
      containsSub (str "04_multivariate_analysis") path = false →
      containsSub (str "05_diversity_metrics") path = false →
      containsSub (str "06_mixed_effects_models") path = false →
      containsSub (str "07_time_series_analysis") path = false →
      determineCategory path = str "08_spatial_analysis" := by
  intro path h8 h0 h1 h2 h3 h4 h5 h6 h7
  simp [determineCategory, workflowCategories, firstKeyIn, h0, h1, h2, h3, h4, h5, h6, h7, h8]

/-- Witness for C5 amended: a spatial-analysis path with a neutral filename. -/
theorem c5_witness :
    determineCategory (str "workflows/08_spatial_analysis/intro.md")
      = str "08_spatial_analysis" :=
  c5_category_amended _ (by decide) (by decide) (by decide) (by decide) (by decide)
    (by decide) (by decide) (by decide) (by decide)

/-- C6: when no `# Vibe Workflow:` line matches, the `**Goal:**` pattern takes
priority over the generic heading pattern, and when no pattern matches the
title falls back to the title-cased stem. -/
theorem c6_title_priority :
    (∀ (stem content x : Str),
        firstCapture (str "# Vibe Workflow: ") (splitOnChar '\n' content) = none →
        firstCapture (str "**Goal:** ") (splitOnChar '\n' content) = some x →
        (∃ y, firstCapture (str "# ") (splitOnChar '\n' content) = some y) →
        extractWorkflowTitle stem content = pyStrip x)
    ∧ (∀ stem content : Str,
        firstCapture (str "# Vibe Workflow: ") (splitOnChar '\n' content) = none →
        firstCapture (str "**Goal:** ") (splitOnChar '\n' content) = none →
        firstCapture (str "# ") (splitOnChar '\n' content) = none →
        extractWorkflowTitle stem content = pyTitle (underscoreToSpace stem)) := by
  constructor
  · intro stem content x h1 h2 _
    simp [extractWorkflowTitle, h1, h2]
  · intro stem content h1 h2 h3
    simp [extractWorkflowTitle, h1, h2, h3]

/-- Witness for C6: a file with both a goal line and a generic heading yields
the goal text, not the heading text. -/
theorem c6_witness :
    extractWorkflowTitle (str "my_file") (str "**Goal:** Analyze data\n# Intro")
        = str "Analyze data"
    ∧ str "Analyze data" ≠ str "Intro" := by
  have h := c6_title_priority.1 (str "my_file") (str "**Goal:** Analyze data\n# Intro")
    (str "Analyze data") (by decide) (by decide) ⟨str "Intro", by decide⟩
  exact ⟨by rw [h]; decide, by decide⟩

/-- C4 counterexample: a path containing no category key whose filename
keyword-resolves to `01_data_wrangling`, and a link map that the relationship
table would match under that category, yet cross-reference injection finds no
related workflows and inserts nothing; with the category key present in the
path, the same map does yield links. -/
theorem c4_fallback_counterexample :
    (workflowCategories.all fun pr =>
        !(containsSub pr.1 (str "docs/workflows/tidy_data.md"))) = true
    ∧ determineCategory (str "docs/workflows/tidy_data.md") = str "01_data_wrangling"
    ∧ findRelatedWorkflows (str "docs/workflows/tidy_data.md")
        [(str "visualization_basics", str "workflows/visualization_basics.md")] = []
    ∧ addCrossReferencesToFile (str "docs/workflows/tidy_data.md") (str "Tidy data notes.")
        [(str "visualization_basics", str "workflows/visualization_basics.md")]
        = str "Tidy data notes."
    ∧ findRelatedWorkflows (str "workflows/01_data_wrangling/tidy_data.md")
        [(str "visualization_basics", str "workflows/visualization_basics.md")] ≠ [] := by
  refine ⟨by decide, by decide, by decide, by decide, by decide⟩

/-- C4 amended: when no category key is a substring of the path,
cross-reference category resolution does not fall back to the filename
keywords; the file gets no related links and its content is unchanged. -/
theorem c4_no_fallback_amended :
    ∀ (path content : Str) (links : List (Str × Str)),
      (workflowCategories.all fun pr => !(containsSub pr.1 path)) = true →
      findRelatedWorkflows path links = []
      ∧ addCrossReferencesToFile path content links = content := by
  intro path content links h
  have hk : firstKeyIn path workflowCategories = none := firstKeyIn_eq_none h
  have hfr : findRelatedWorkflows path links = [] := by
    simp [findRelatedWorkflows, hk]
  refine ⟨hfr, ?_⟩
  by_cases hg : containsSub relatedHeaderStr content = true
  · simp [addCrossReferencesToFile, hg]
  · have hg' : containsSub relatedHeaderStr content = false := by simpa using hg
    simp [addCrossReferencesToFile, hg', hfr]

/-- Witness for C4 amended: a keyless path stays untouched even with a
matching link map. -/
theorem c4_witness :
    findRelatedWorkflows (str "docs/notes.md")
        [(str "data_wrangling_intro", str "workflows/x.md")] = []
    ∧ addCrossReferencesToFile (str "docs/notes.md") (str "hello")
        [(str "data_wrangling_intro", str "workflows/x.md")] = str "hello" :=
  c4_no_fallback_amended _ _ _ (by decide)

theorem countOcc_cons_skip {p : Str} {c : Char} (hp : p ≠ []) (h : p.head? ≠ some c)
    (s : Str) : countOcc p (c :: s) = countOcc p s := by
  obtain ⟨x, pt, rfl⟩ := List.exists_cons_of_ne_nil hp
  have hx : x ≠ c := by
    intro hxe
    exact h (by simp [hxe])
  simp [countOcc, List.isPrefixOf, beq_eq_false_iff_ne.mpr hx]

theorem head?_ne_of_not_mem {p : Str} {c : Char} (hp : p ≠ []) (hc : c ∉ p) :
    p.head? ≠ some c := by
  obtain ⟨x, pt, rfl⟩ := List.exists_cons_of_ne_nil hp
  intro hx
  have hxc : x = c := by simpa using hx
  exact hc (hxc ▸ List.mem_cons_self x pt)

theorem countOcc_bullet_block {t u : Str}
    (ht : containsSub relatedHeaderStr t = false)
    (hu : containsSub relatedHeaderStr u = false) (acc : Str) :
    countOcc relatedHeaderStr (acc ++ str "- [" ++ t ++ str "](" ++ u ++ str ")\n")
      = countOcc relatedHeaderStr acc := by
  have hb1 : str "- [" = ('-' :: ' ' :: '[' :: [] : Str) := rfl
  have hb2 : str "](" = (']' :: '(' :: [] : Str) := rfl
  have hb3 : str ")\n" = (')' :: '\n' :: [] : Str) := rfl
  rw [hb1, hb2, hb3]
  simp only [List.cons_append, List.nil_append, List.append_assoc]
  rw [countOcc_append_cons (by decide) (by decide)]
  rw [countOcc_cons_skip (by decide) (by decide)]
  rw [countOcc_cons_skip (by decide) (by decide)]
  rw [countOcc_append_cons (by decide) (by decide)]
  rw [countOcc_cons_skip (by decide) (by decide)]
  rw [countOcc_append_cons (by decide) (by decide)]
  rw [countOcc_cons_skip (by decide) (by decide)]
  rw [countOcc_eq_zero_of_not_contains ht, countOcc_eq_zero_of_not_contains hu]
  simp [countOcc]

theorem countOcc_crossRefFold :
    ∀ (related : List (Str × Str)) (acc : Str),
      (∀ pr ∈ related, containsSub relatedHeaderStr pr.1 = false
          ∧ containsSub relatedHeaderStr pr.2 = false) →
      countOcc relatedHeaderStr
        (related.foldl
          (fun a pr => a ++ str "- [" ++ pr.1 ++ str "](" ++ pr.2 ++ str ")\n") acc)
        = countOcc relatedHeaderStr acc := by
  intro related
  induction related with
  | nil => intro acc _; rfl
  | cons pr rest ih =>
    intro acc h
    have hpr := h pr (List.mem_cons_self pr rest)
    rw [List.foldl_cons]
    rw [ih _ fun q hq => h q (List.mem_cons_of_mem pr hq)]
    exact countOcc_bullet_block hpr.1 hpr.2 acc

theorem crossRefSection_eq (related : List (Str × Str)) :
    crossRefSection related
      = '\n' :: ((str "## Related Workflows\n\n"
          ++ related.foldl
              (fun acc pr => acc ++ str "- [" ++ pr.1 ++ str "](" ++ pr.2 ++ str ")\n") [])
          ++ ['\n']) := by
  unfold crossRefSection
  have h1 : str "\n## Related Workflows\n\n" = '\n' :: str "## Related Workflows\n\n" := rfl
  have h2 : str "\n" = (['\n'] : Str) := rfl
  rw [h1, h2]
  simp [List.cons_append, List.append_assoc]

theorem countOcc_crossRefSection (related : List (Str × Str))
    (h : ∀ pr ∈ related, containsSub relatedHeaderStr pr.1 = false
        ∧ containsSub relatedHeaderStr pr.2 = false) :
    countOcc relatedHeaderStr (crossRefSection related) = 1 := by
  have hB : countOcc relatedHeaderStr
      (related.foldl
        (fun acc pr => acc ++ str "- [" ++ pr.1 ++ str "](" ++ pr.2 ++ str ")\n") []) = 0 := by
    rw [countOcc_crossRefFold related [] h]
    rfl
  rw [crossRefSection_eq]
  generalize hg : (related.foldl
      (fun acc pr => acc ++ str "- [" ++ pr.1 ++ str "](" ++ pr.2 ++ str ")\n") []) = B at hB ⊢
  have h3 : str "## Related Workflows\n\n"
      = relatedHeaderStr ++ ('\n' :: '\n' :: [] : Str) := rfl
  rw [h3]
  simp only [List.cons_append, List.nil_append, List.append_assoc]
  rw [countOcc_cons_skip (by decide) (by decide)]
  rw [countOcc_append_cons (by decide) (by decide)]
  rw [countOcc_cons_skip (by decide) (by decide)]
  rw [countOcc_append_cons (by decide) (by decide)]
  rw [hB, countOcc_self (by decide)]
  rfl

theorem countOcc_joinC_insert {p : Str} (hp : p ≠ []) (hnl : ('\n' : Char) ∉ p) (mid : Str) :
    ∀ (A B : List Str), B ≠ [] →
      countOcc p (joinC '\n' (A ++ ('\n' :: (mid ++ ['\n'])) :: B))
        = countOcc p ('\n' :: (mid ++ ['\n'])) + countOcc p (joinC '\n' (A ++ B)) := by
  have hh : p.head? ≠ some '\n' := head?_ne_of_not_mem hp hnl
  intro A
  induction A with
  | nil =>
    intro B hB
    rw [List.nil_append, List.nil_append, joinC_cons_of_ne_nil '\n' _ hB]
    have hsh : ('\n' :: (mid ++ ['\n'])) ++ '\n' :: joinC '\n' B
        = '\n' :: (mid ++ '\n' :: ('\n' :: joinC '\n' B)) := by
      simp [List.cons_append, List.append_assoc]
    rw [hsh]
    rw [countOcc_cons_skip hp hh]
    rw [countOcc_append_cons hnl hp]
    rw [countOcc_cons_skip hp hh]
    rw [countOcc_cons_skip hp hh]
    rw [countOcc_append_cons hnl hp]
    simp [countOcc]
  | cons a A' ih =>
    intro B hB
    have h1 : (a :: A') ++ ('\n' :: (mid ++ ['\n'])) :: B
        = a :: (A' ++ ('\n' :: (mid ++ ['\n'])) :: B) := rfl
    rw [h1, joinC_cons_of_ne_nil '\n' a (by simp)]
    rw [countOcc_append_cons hnl hp]
    rw [ih B hB]
    have h2 : (a :: A') ++ B = a :: (A' ++ B) := rfl
    rw [h2, joinC_cons_of_ne_nil '\n' a (by simp [hB])]
    rw [countOcc_append_cons hnl hp]
    omega

theorem crossRefSection_contains_header (related : List (Str × Str)) :
    containsSub relatedHeaderStr (crossRefSection related) = true := by
  apply containsSub_of_infix
  have h1 : relatedHeaderStr <:+: str "\n## Related Workflows\n\n" := by
    have h0 : containsSub relatedHeaderStr (str "\n## Related Workflows\n\n") = true := by decide
    exact (containsSub_correct _ _).mp h0
  have h2 : str "\n## Related Workflows\n\n" <+: crossRefSection related := by
    unfold crossRefSection
    rw [List.append_assoc]
    exact List.prefix_append _ _
  exact h1.trans h2.isInfix

theorem lastMatchIdx_lt {pred : Str → Bool} :
    ∀ {ls : List Str} {i : Nat}, lastMatchIdx pred ls = some i → i < ls.length := by
  intro ls
  induction ls with
  | nil => intro i h; cases h
  | cons l rest ih =>
    intro i h
    simp only [lastMatchIdx] at h
    rcases hr : lastMatchIdx pred rest with _ | j
    · rw [hr] at h
      by_cases hl : pred l = true
      · simp [hl] at h
        simp [← h]
      · simp [hl] at h
    · rw [hr] at h
      simp only [Option.some.injEq] at h
      have := ih hr
      simp [← h]
      omega

theorem addCross_of_contains (path content : Str) (links : List (Str × Str))
    (h : containsSub relatedHeaderStr content = true) :
    addCrossReferencesToFile path content links = content := by
  simp [addCrossReferencesToFile, h]

theorem addCross_of_no_related (path content : Str) (links : List (Str × Str))
    (h : findRelatedWorkflows path links = []) :
    addCrossReferencesToFile path content links = content := by
  unfold addCrossReferencesToFile
  rw [h]
  simp

/-- C3 counterexample: with a workflow-link map whose target string itself
contains `## Related Workflows`, the first application inserts, yet the
resulting content contains the section header twice, refuting the
exactly-once clause as universally stated. -/
theorem c3_cross_ref_counterexample :
    addCrossReferencesToFile (str "01_data_wrangling/a.md") (str "hello")
        [(str "visualization_demo", str "## Related Workflows")] ≠ str "hello"
    ∧ countOcc relatedHeaderStr
        (addCrossReferencesToFile (str "01_data_wrangling/a.md") (str "hello")
          [(str "visualization_demo", str "## Related Workflows")]) = 2 := by
  refine ⟨by decide, by decide⟩

/-- C3 amended: cross-reference injection is idempotent for every file and
link map; and when the first application inserts (guard absent, related set
non-empty) the result contains `## Related Workflows` exactly once, provided
no inserted link title or target contains that header string. -/
theorem c3_cross_ref_amended :
    ∀ (path content : Str) (links : List (Str × Str)),
      addCrossReferencesToFile path (addCrossReferencesToFile path content links) links
        = addCrossReferencesToFile path content links
      ∧ (containsSub relatedHeaderStr content = false →
          findRelatedWorkflows path links ≠ [] →
          (∀ pr ∈ findRelatedWorkflows path links,
              containsSub relatedHeaderStr pr.1 = false
              ∧ containsSub relatedHeaderStr pr.2 = false) →
          countOcc relatedHeaderStr (addCrossReferencesToFile path content links) = 1) := by
  intro path content links
  by_cases hg : containsSub relatedHeaderStr content = true
  · have hs := addCross_of_contains path content links hg
    refine ⟨by rw [hs, hs], ?_⟩
    intro hgf
    rw [hg] at hgf
    cases hgf
  · have hg' : containsSub relatedHeaderStr content = false := by simpa using hg
    rcases hrel : findRelatedWorkflows path links with _ | ⟨q, qs⟩
    · have hs := addCross_of_no_related path content links hrel
      refine ⟨by rw [hs, hs], ?_⟩
      intro _ hne _
      exact absurd rfl hne
    · rcases hidx : lastMatchIdx isSummaryLine (splitOnChar '\n' content) with _ | i
      · have hres : addCrossReferencesToFile path content links
            = content ++ crossRefSection (q :: qs) := by
          simp only [addCrossReferencesToFile, hg', hrel, hidx]
          simp
        have hcont : containsSub relatedHeaderStr
            (addCrossReferencesToFile path content links) = true := by
          rw [hres]
          apply containsSub_of_infix
          have h1 : relatedHeaderStr <:+: crossRefSection (q :: qs) :=
            (containsSub_correct _ _).mp (crossRefSection_contains_header _)
          exact h1.trans (List.suffix_append content _).isInfix
        refine ⟨addCross_of_contains path _ links hcont, ?_⟩
        intro _ _ hprs
        have hsec : countOcc relatedHeaderStr (crossRefSection (q :: qs)) = 1 :=
          countOcc_crossRefSection _ hprs
        rw [crossRefSection_eq] at hsec
        rw [countOcc_cons_skip (by decide) (by decide)] at hsec
        rw [hres, crossRefSection_eq]
        rw [countOcc_append_cons (by decide) (by decide)]
        rw [countOcc_eq_zero_of_not_contains hg', hsec]
      · have hres : addCrossReferencesToFile path content links
            = joinC '\n' ((splitOnChar '\n' content).take i
                ++ crossRefSection (q :: qs) :: (splitOnChar '\n' content).drop i) := by
          simp only [addCrossReferencesToFile, hg', hrel, hidx]
          simp
        have hcont : containsSub relatedHeaderStr
            (addCrossReferencesToFile path content links) = true := by
          rw [hres]
          apply containsSub_of_infix
          have h1 : relatedHeaderStr <:+: crossRefSection (q :: qs) :=
            (containsSub_correct _ _).mp (crossRefSection_contains_header _)
          have h2 : crossRefSection (q :: qs) <:+: joinC '\n'
              ((splitOnChar '\n' content).take i
                ++ crossRefSection (q :: qs) :: (splitOnChar '\n' content).drop i) :=
            joinC_infix_of_mem (List.mem_append_right _ (List.mem_cons_self _ _))
          exact h1.trans h2
        refine ⟨addCross_of_contains path _ links hcont, ?_⟩
        intro _ _ hprs
        have hsec : countOcc relatedHeaderStr (crossRefSection (q :: qs)) = 1 :=
          countOcc_crossRefSection _ hprs
        rw [crossRefSection_eq] at hsec
        have hBne : (splitOnChar '\n' content).drop i ≠ [] := by
          have hlt := lastMatchIdx_lt hidx
          rw [Ne, List.drop_eq_nil_iff]
          omega
        rw [hres, crossRefSection_eq]
        rw [countOcc_joinC_insert (by decide) (by decide) _ _ _ hBne]
        rw [List.take_append_drop, joinC_splitOnChar]
        rw [countOcc_eq_zero_of_not_contains hg', hsec]

/-- Witness for C3 amended: a clean link map gives exactly one inserted
`## Related Workflows` header. -/
theorem c3_witness :
    countOcc relatedHeaderStr
        (addCrossReferencesToFile (str "01_data_wrangling/a.md") (str "hello")
          [(str "visualization_demo", str "workflows/visualization_demo.md")]) = 1 :=
  (c3_cross_ref_amended (str "01_data_wrangling/a.md") (str "hello")
      [(str "visualization_demo", str "workflows/visualization_demo.md")]).2
    (by decide) (by decide) (by decide)

theorem foldl_coStep_filter :
    ∀ (files : List SrcFile) (acc : FileMap4 × List (Str × Str × Str)),
      List.foldl coStep acc (files.filter fun g => (routeFile g).isSome)
        = List.foldl coStep acc files := by
  intro files
  induction files with
  | nil => intro acc; rfl
  | cons g fs ih =>
    intro acc
    rcases h : routeFile g with _ | c
    · have hf : (routeFile g).isSome = false := by rw [h]; rfl
      rw [List.filter_cons]
      simp only [hf, Bool.false_eq_true, if_false]
      rw [ih, List.foldl_cons]
      have hstep : coStep acc g = acc := by simp [coStep, h]
      rw [hstep]
    · have hf : (routeFile g).isSome = true := by rw [h]; rfl
      rw [List.filter_cons]
      simp only [hf, if_true]
      rw [List.foldl_cons, List.foldl_cons, ih]

/-- C7: routing tests the path for `workflows`, `examples`, `rules` in that
order, then the main filenames (earlier matches win); a file matching nothing
is excluded from the file map and never copied. -/
theorem c7_copy_routing :
    ∀ (files : List SrcFile) (f : SrcFile),
      (containsSub (str "workflows") f.path = true → routeFile f = some RouteCat.workflows)
      ∧ (containsSub (str "workflows") f.path = false →
          containsSub (str "examples") f.path = true → routeFile f = some RouteCat.examples)
      ∧ (containsSub (str "workflows") f.path = false →
          containsSub (str "examples") f.path = false →
          containsSub (str "rules") f.path = true → routeFile f = some RouteCat.rules)
      ∧ (containsSub (str "workflows") f.path = false →
          containsSub (str "examples") f.path = false →
          containsSub (str "rules") f.path = false →
          pathName f.path ∈ mainFileNames → routeFile f = some RouteCat.main)
      ∧ (routeFile f = none → copyAndOrganize [f] = (emptyFileMap, []))
      ∧ copyAndOrganize (files.filter fun g => (routeFile g).isSome)
          = copyAndOrganize files := by
  intro files f
  refine ⟨?_, ?_, ?_, ?_, ?_, ?_⟩
  · intro h1; simp [routeFile, h1]
  · intro h1 h2; simp [routeFile, h1, h2]
  · intro h1 h2 h3; simp [routeFile, h1, h2, h3]
  · intro h1 h2 h3 h4; simp [routeFile, h1, h2, h3, h4]
  · intro h
    simp [copyAndOrganize, coStep, h]
  · exact foldl_coStep_filter files (emptyFileMap, [])

/-- Witness for C7: one file per routing case, and a dropped file that leaves
no trace in the file map or the copy actions. -/
theorem c7_witness :
    routeFile ⟨str "examples/rules/workflows_guide.md", str "x"⟩ = some RouteCat.workflows
    ∧ routeFile ⟨str "examples/rules/guide.md", str "x"⟩ = some RouteCat.examples
    ∧ routeFile ⟨str "rules/guide.md", str "x"⟩ = some RouteCat.rules
    ∧ routeFile ⟨str "README.md", str "x"⟩ = some RouteCat.main
    ∧ copyAndOrganize [⟨str "notes/todo.md", str "x"⟩] = (emptyFileMap, [])
    ∧ copyAndOrganize ([⟨str "notes/todo.md", str "x"⟩].filter fun g => (routeFile g).isSome)
        = copyAndOrganize [⟨str "notes/todo.md", str "x"⟩] := by
  refine ⟨?_, ?_, ?_, ?_, ?_, ?_⟩
  · exact (c7_copy_routing [] ⟨str "examples/rules/workflows_guide.md", str "x"⟩).1 (by decide)
  · exact (c7_copy_routing [] ⟨str "examples/rules/guide.md", str "x"⟩).2.1 (by decide) (by decide)
  · exact (c7_copy_routing [] ⟨str "rules/guide.md", str "x"⟩).2.2.1
      (by decide) (by decide) (by decide)
  · exact (c7_copy_routing [] ⟨str "README.md", str "x"⟩).2.2.2.1
      (by decide) (by decide) (by decide) (by decide)
  · exact (c7_copy_routing [] ⟨str "notes/todo.md", str "x"⟩).2.2.2.2.1 (by decide)
  · exact (c7_copy_routing [⟨str "notes/todo.md", str "x"⟩]
      ⟨str "notes/todo.md", str "x"⟩).2.2.2.2.2

/-- C10: a missing lint executable yields a failure result with the specific
tool-not-found message, which differs from every non-zero-exit lint message;
the modelled function is total, so the run completes. -/
theorem c10_lint_missing :
    runMarkdownLint LintOutcome.toolNotFound = (false, lintNotFoundMsg)
    ∧ (∀ (rc : Int) (out : Str), rc ≠ 0 →
        runMarkdownLint (LintOutcome.completed rc out) = (false, lintFailMsg out))
    ∧ (∀ out : Str, lintFailMsg out ≠ lintNotFoundMsg) := by
  refine ⟨rfl, ?_, ?_⟩
  · intro rc out h
    simp [runMarkdownLint, h]
  · intro out h
    have h2 := congrArg (fun l : Str => l[2]?) h
    have h3 : (some 'M' : Option Char) = some 'm' := h2
    exact absurd h3 (by decide)

/-- Witness for C10: exit code 1 gives the lint-failure message, distinct
from the tool-not-found message. -/
theorem c10_witness :
    runMarkdownLint (LintOutcome.completed 1 (str "x")) = (false, lintFailMsg (str "x"))
    ∧ lintFailMsg (str "x") ≠ lintNotFoundMsg :=
  ⟨c10_lint_missing.2.1 1 (str "x") (by decide), c10_lint_missing.2.2 (str "x")⟩

theorem tryLink_no_bracket {s t u rem : Str} (h : tryLink s = some (t, u, rem)) :
    ']' ∉ t ∧ ')' ∉ u := by
  simp only [tryLink] at h
  split at h
  · split at h
    · cases h
    · split at h
      · split at h
        · cases h
        · simp only [Option.some.injEq, Prod.mk.injEq] at h
          obtain ⟨ht, hu, -⟩ := h
          constructor
          · intro hmem
            rw [← ht] at hmem
            have hp := List.mem_takeWhile_imp hmem
            simp at hp
          · intro hmem
            rw [← hu] at hmem
            have hp := List.mem_takeWhile_imp hmem
            simp at hp
      · cases h
  · cases h

theorem scanLinks_no_bracket :
    ∀ (fuel : Nat) (s : Str) (pr : Str × Str), pr ∈ scanLinks fuel s →
      ']' ∉ pr.1 ∧ ')' ∉ pr.2 := by
  intro fuel
  induction fuel with
  | zero => intro s pr h; cases h
  | succ fuel ih =>
    intro s pr h
    cases s with
    | nil => cases h
    | cons c rest =>
      simp only [scanLinks] at h
      by_cases hc : c = '['
      · rw [if_pos hc] at h
        rcases htl : tryLink rest with _ | ⟨t, u, rem⟩
        · rw [htl] at h
          exact ih rest pr h
        · rw [htl] at h
          rcases List.mem_cons.mp h with rfl | hmem
          · exact tryLink_no_bracket htl
          · exact ih rem pr hmem
      · rw [if_neg hc] at h
        exact ih rest pr h

theorem extractLinks_no_bracket {content : Str} {pr : Str × Str}
    (h : pr ∈ extractLinks content) : ']' ∉ pr.1 ∧ ')' ∉ pr.2 :=
  scanLinks_no_bracket content.length content pr h

theorem append_bracket_inj {c : Char} :
    ∀ {t t' w w' : Str}, c ∉ t → c ∉ t' →
      t ++ c :: w = t' ++ c :: w' → t = t' ∧ w = w' := by
  intro t
  induction t with
  | nil =>
    intro t' w w' _ ht' h
    cases t' with
    | nil =>
      simp only [List.nil_append] at h
      injection h with h1 h2
      exact ⟨rfl, h2⟩
    | cons b t'' =>
      simp only [List.nil_append, List.cons_append] at h
      injection h with h1 h2
      exact absurd (by rw [h1]; exact List.mem_cons_self b t'') ht'
  | cons a t₂ ih =>
    intro t' w w' ht ht' h
    cases t' with
    | nil =>
      simp only [List.cons_append, List.nil_append] at h
      injection h with h1 h2
      exact absurd (by rw [← h1]; exact List.mem_cons_self a t₂) ht
    | cons b t₃ =>
      simp only [List.cons_append] at h
      injection h with h1 h2
      have ht2 : c ∉ t₂ := fun hm => ht (List.mem_cons_of_mem a hm)
      have ht3 : c ∉ t₃ := fun hm => ht' (List.mem_cons_of_mem b hm)
      obtain ⟨he, hw⟩ := ih ht2 ht3 h2
      exact ⟨by rw [h1, he], hw⟩

theorem brokenMsg_inj {nm t u t' u' : Str} (ht : ']' ∉ t) (ht' : ']' ∉ t')
    (h : brokenMsg nm t u = brokenMsg nm t' u') : t = t' ∧ u = u' := by
  unfold brokenMsg at h
  have e1 : str ": [" = (':' :: ' ' :: '[' :: [] : Str) := rfl
  have e2 : str "](" = (']' :: '(' :: [] : Str) := rfl
  have e3 : str ")" = ([')'] : Str) := rfl
  rw [e1, e2, e3] at h
  simp only [List.cons_append, List.nil_append, List.append_assoc] at h
  have h2 := List.append_cancel_left h
  have h3 := List.append_cancel_left h2
  injection h3 with _ h4
  injection h4 with _ h5
  injection h5 with _ h6
  obtain ⟨hte, hr⟩ := append_bracket_inj ht ht' h6
  injection hr with _ hr2
  exact ⟨hte, List.append_cancel_right hr2⟩

theorem count_issueOf_filterMap (avail : List Str) (nm t0 u0 : Str)
    (ht0 : ']' ∉ t0)
    (hhttp : (str "http").isPrefixOf u0 = false)
    (havail : avail.contains u0 = false) :
    ∀ L : List (Str × Str), (∀ pr ∈ L, ']' ∉ pr.1) →
      countElem (brokenMsg nm t0 u0) (L.filterMap (issueOf avail nm))
        = countElem (t0, u0) L := by
  have hself : issueOf avail nm (t0, u0) = some (brokenMsg nm t0 u0) := by
    show (if (str "http").isPrefixOf u0 then none
        else if avail.contains u0 then none else some (brokenMsg nm t0 u0))
      = some (brokenMsg nm t0 u0)
    rw [hhttp, havail]
    simp
  intro L
  induction L with
  | nil => intro _; rfl
  | cons pr rest ih =>
    intro h
    have hpr1 : ']' ∉ pr.1 := (h pr (List.mem_cons_self pr rest))
    have hrest : ∀ q ∈ rest, ']' ∉ q.1 := fun q hq => h q (List.mem_cons_of_mem pr hq)
    rw [List.filterMap_cons]
    rcases hio : issueOf avail nm pr with _ | m
    · have hne : pr ≠ (t0, u0) := by
        intro he
        rw [he, hself] at hio
        cases hio
      rw [ih hrest]
      simp [countElem, hne]
    · have hm : m = brokenMsg nm pr.1 pr.2 := by
        simp only [issueOf] at hio
        split at hio
        · cases hio
        · split at hio
          · cases hio
          · injection hio with hh
            exact hh.symm
      by_cases hpe : pr = (t0, u0)
      · subst hpe
        have hmm : m = brokenMsg nm t0 u0 := by rw [hm]
        simp only [countElem, hmm]
        rw [ih hrest]
      · have hmne : m ≠ brokenMsg nm t0 u0 := by
          intro he
          rw [hm] at he
          obtain ⟨h1, h2⟩ := brokenMsg_inj hpr1 ht0 he
          exact hpe (Prod.ext h1 h2)
        simp only [countElem]
        rw [ih hrest]
        simp [hmne, hpe]

theorem mem_of_countElem_ne_zero {α : Type} [DecidableEq α] {x : α} :
    ∀ {l : List α}, countElem x l ≠ 0 → x ∈ l := by
  intro l
  induction l with
  | nil => intro h; exact absurd rfl h
  | cons y l ih =>
    intro h
    by_cases hyx : y = x
    · rw [← hyx]
      exact List.mem_cons_self y l
    · simp only [countElem, hyx, if_false] at h
      exact List.mem_cons_of_mem y (ih (by simpa using h))

theorem mem_validateGo {avail : List Str} {st : Store} {msg : Str} :
    ∀ {ps : List Str} {p : Str}, p ∈ ps →
      msg ∈ fileIssues avail (pathName p) (st p) → msg ∈ validateGo avail st ps := by
  intro ps
  induction ps with
  | nil => intro p h; cases h
  | cons q qs ih =>
    intro p hp hmsg
    rcases List.mem_cons.mp hp with rfl | hmem
    · exact List.mem_append_left _ hmsg
    · exact List.mem_append_right _ (ih hmem hmsg)

/-- C9 counterexample: a target beginning with the URL scheme `ftp://` is not
skipped; it is reported as a broken link, refuting the claim's clause that
targets beginning with a URL scheme are skipped (the code only skips targets
beginning with `http`). -/
theorem c9_link_validation_counterexample :
    (str "ftp://").isPrefixOf (str "ftp://example.org/doc.md") = true
    ∧ validateInternalLinks ⟨[str "docs/workflows/a.md"], [], [], []⟩
        (fun p => if p = str "docs/workflows/a.md"
          then str "[a](ftp://example.org/doc.md)" else [])
        = [str "Broken link in a.md: [a](ftp://example.org/doc.md)"] := by
  refine ⟨by decide, by decide⟩

/-- C9 amended: a copied file whose extracted links contain
`[text](nonexistent.md)` exactly once, with the target unknown, contributes
exactly one diagnostic naming that file and that link; the diagnostic appears
in the collected result list (the function is total, so the run completes);
and targets beginning with `http` are skipped. -/
theorem c9_link_validation_amended :
    ∀ (fm : FileMap4) (st : Store) (p : Str),
      p ∈ allFiles fm →
      countElem (str "text", str "nonexistent.md") (extractLinks (st p)) = 1 →
      (availableFiles fm).contains (str "nonexistent.md") = false →
      (countElem (brokenMsg (pathName p) (str "text") (str "nonexistent.md"))
          (fileIssues (availableFiles fm) (pathName p) (st p)) = 1
        ∧ brokenMsg (pathName p) (str "text") (str "nonexistent.md")
            ∈ validateInternalLinks fm st
        ∧ ∀ (nm : Str) (pr : Str × Str), (str "http").isPrefixOf pr.2 = true →
            issueOf (availableFiles fm) nm pr = none) := by
  intro fm st p hp hcount havail
  have hbr : ∀ pr ∈ extractLinks (st p), ']' ∉ pr.1 :=
    fun pr hpr => (extractLinks_no_bracket hpr).1
  have h1 : countElem (brokenMsg (pathName p) (str "text") (str "nonexistent.md"))
      (fileIssues (availableFiles fm) (pathName p) (st p)) = 1 := by
    unfold fileIssues
    rw [count_issueOf_filterMap (availableFiles fm) (pathName p) (str "text")
      (str "nonexistent.md") (by decide) (by decide) havail (extractLinks (st p)) hbr]
    exact hcount
  refine ⟨h1, ?_, ?_⟩
  · exact mem_validateGo hp (mem_of_countElem_ne_zero (by rw [h1]; exact one_ne_zero))
  · intro nm pr hpre
    simp [issueOf, hpre]

/-- Witness for C9 amended: one copied file containing the broken link
produces its diagnostic in the collected list. -/
theorem c9_witness :
    brokenMsg (pathName (str "docs/workflows/b.md")) (str "text") (str "nonexistent.md")
      ∈ validateInternalLinks ⟨[str "docs/workflows/b.md"], [], [], []⟩
          (fun p => if p = str "docs/workflows/b.md"
            then str "see [text](nonexistent.md) here" else []) :=
  (c9_link_validation_amended ⟨[str "docs/workflows/b.md"], [], [], []⟩
      (fun p => if p = str "docs/workflows/b.md"
        then str "see [text](nonexistent.md) here" else [])
      (str "docs/workflows/b.md")
      (by decide) (by decide) (by decide)).2.1

/-- C1: on the minimal tree with only `workflows/01_data_wrangling/intro.md`
containing `# Intro`, the pipeline writes `docs/workflows/intro.md` as the
heading followed by the badge block, and the generated `docs/README.md`
contains the link line `[Intro](workflows/intro.md)` — but it is placed under
a heading literally labeled `00_other`, not under the `🧹 Data Wrangling`
label, because index categorization runs on the flattened destination path
`docs/workflows/intro.md`, which contains no category key, and the filename
`intro` matches no keyword. -/
theorem c1_pipeline_eval :
    buildDocumentation [⟨str "workflows/01_data_wrangling/intro.md", str "# Intro"⟩]
        (str "docs/workflows/intro.md")
      = str "# Intro\n" ++ badgeSectionStr
    ∧ containsSub (str "- [Intro](workflows/intro.md)")
        (buildDocumentation [⟨str "workflows/01_data_wrangling/intro.md", str "# Intro"⟩]
          (str "docs/README.md")) = true
    ∧ containsSub (str "\n#### 00_other\n\n- [Intro](workflows/intro.md)\n")
        (buildDocumentation [⟨str "workflows/01_data_wrangling/intro.md", str "# Intro"⟩]
          (str "docs/README.md")) = true
    ∧ containsSub (str "Data Wrangling")
        (buildDocumentation [⟨str "workflows/01_data_wrangling/intro.md", str "# Intro"⟩]
          (str "docs/README.md")) = false
    ∧ determineCategory (str "docs/workflows/intro.md") = str "00_other" := by
  refine ⟨by decide, by decide, by decide, by decide, by decide⟩
